import Mathlib

/-!
# Verification of the httperf benchmark-sweep harness (`src/main.rs`)

Shallow embedding of the sweep-and-extract engine:
* queries are built from dictionary prefixes joined by `+` (`reducePlus`),
* the external tool invocation is modelled by an oracle
  `exec : List String → Option ProcOutput` (argument list ↦ process result),
  with the list of performed invocations returned as an explicit trace,
* the three extraction regexes are embedded as token lists (`RTok`) with a
  leftmost, greedy backtracking matcher (`findMatch`), mirroring the
  `regex` crate's semantics on these patterns,
* `f32` values are modelled exactly: `F32` is a rational number, NaN, or a
  signed infinity (decimal parsing is exact; rounding to binary floats is
  not modelled, no claim depends on it), and `partial_cmp` is `pcmp`,
* every `expect`/`unwrap` panic becomes an `Except.error` carrying the
  panic message of the source.
-/

/-- `TestKind` enum of `main.rs`. -/
inductive TestKind where
  | Latency
  | ThroughputBytes
  | ThroughputReq
deriving DecidableEq, Repr

/-- `const SAMPLES: usize = 10`. -/
def SAMPLES : Nat := 10

/-- `const BENCH_CMD: &str = "httperf"`. -/
def BENCH_CMD : String := "httperf"

/-- `const DEFAULT_TESTS: [TestKind; 3]`. -/
def DEFAULT_TESTS : List TestKind :=
  [TestKind.Latency, TestKind.ThroughputBytes, TestKind.ThroughputReq]

/-- `const OUT_FILES: [&str; 3]`. -/
def OUT_FILES : List String :=
  ["multisampled_latency.png", "multisampled_throughput_bytes.png",
   "multisampled_throughput_requests.png"]

deriving instance DecidableEq for Except

/-- Model of an `f32` value: an exact rational, NaN, or a signed infinity. -/
inductive F32 where
  | num (q : Rat)
  | nan
  | inf (neg : Bool)
deriving DecidableEq, Repr

/-- Three-way comparison of rationals (the total order on numeric floats). -/
def rcompare (x y : Rat) : Ordering :=
  if x < y then .lt else if x = y then .eq else .gt

/-- Model of `f32::partial_cmp`: `none` whenever NaN is involved. -/
def pcmp : F32 → F32 → Option Ordering
  | .nan, _ => none
  | _, .nan => none
  | .num x, .num y => some (rcompare x y)
  | .num _, .inf b => some (if b then .gt else .lt)
  | .inf b, .num _ => some (if b then .lt else .gt)
  | .inf a, .inf b =>
      some (if a = b then .eq else if a then .lt else .gt)

/-- ASCII whitespace recognised by the regex class `\s` (Perl `[ \t\n\r\f\v]`). -/
def rustIsSpace (c : Char) : Bool :=
  c = ' ' || c = '\t' || c = '\n' || c = '\r' || c = '\x0b' || c = '\x0c'

/-- Regex tokens occurring in the three source patterns: a literal
character, `.*` (greedy, `.` not matching a newline), and the capture
group `(\S+)` (greedy run of non-whitespace). -/
inductive RTok where
  | lit (c : Char)
  | dotStar
  | capS
deriving DecidableEq, Repr

/-- First `some` value of `f` over `l`, in order (backtracking alternatives). -/
def firstSome (l : List α) (f : α → Option β) : Option β :=
  match l with
  | [] => none
  | a :: rest =>
    match f a with
    | some b => some b
    | none => firstSome rest f

/-- `[s.drop n, s.drop (n-1), …, s.drop 0]`: remainders after `.*`
consumes `n, n-1, …, 0` characters — greedy (longest consumption) first. -/
def dropsDesc (s : List Char) : Nat → List (List Char)
  | 0 => [s]
  | k + 1 => s.drop (k + 1) :: dropsDesc s k

/-- Candidate remainders after `.*` at `s`: it may consume any prefix not
containing a newline, longest first. -/
def dotStarRests (s : List Char) : List (List Char) :=
  dropsDesc s (s.takeWhile (fun c => c ≠ '\n')).length

/-- `[n, n-1, …, 1]`: candidate lengths for `\S+`, greedy first. -/
def descRange : Nat → List Nat
  | 0 => []
  | k + 1 => (k + 1) :: descRange k

/-- Backtracking matcher for a token list against (a prefix of) `s`,
returning the contents of the capture group on success.  Alternatives are
tried in the regex crate's priority order: quantifiers greedy first.
The `fuel` argument only drives the structural recursion: every recursive
call removes one token, so fuel `toks.length + 1` never runs out. -/
def matchToksF : Nat → List RTok → List Char → Option (List Char)
  | 0, _, _ => none
  | _ + 1, [], _ => some []
  | _ + 1, .lit _ :: _, [] => none
  | fuel + 1, .lit c :: ts, d :: rest =>
      if d = c then matchToksF fuel ts rest else none
  | fuel + 1, .dotStar :: ts, s =>
      firstSome (dotStarRests s) (fun r => matchToksF fuel ts r)
  | fuel + 1, .capS :: ts, s =>
      firstSome (descRange (s.takeWhile (fun c => !rustIsSpace c)).length)
        (fun k =>
          match matchToksF fuel ts (s.drop k) with
          | some _ => some (s.take k)
          | none => none)

/-- The matcher at adequate fuel. -/
def matchToks (toks : List RTok) (s : List Char) : Option (List Char) :=
  matchToksF (toks.length + 1) toks s

/-- `Regex::captures` followed by `.get(1)`: leftmost match wins. -/
def findMatch (toks : List RTok) (s : List Char) : Option (List Char) :=
  match matchToks toks s with
  | some cap => some cap
  | none =>
    match s with
    | [] => none
    | _ :: rest => findMatch toks rest

/-- Literal characters of a string as regex tokens. -/
def litToks (s : String) : List RTok := s.toList.map RTok.lit

/-- `r"Connection time.*avg (\S+) max"` as tokens. -/
def latencyToks : List RTok :=
  litToks "Connection time" ++ [RTok.dotStar] ++ litToks "avg " ++
    [RTok.capS] ++ litToks " max"

/-- `r"Request rate: (\S+) req"` as tokens. -/
def reqRateToks : List RTok :=
  litToks "Request rate: " ++ [RTok.capS] ++ litToks " req"

/-- `r"Net I/O: (\S+) "` as tokens. -/
def netIOToks : List RTok :=
  litToks "Net I/O: " ++ [RTok.capS] ++ litToks " "

/-- The per-kind extraction pattern chosen by the `match kind` in `do_test`. -/
def kindToks : TestKind → List RTok
  | .Latency => latencyToks
  | .ThroughputReq => reqRateToks
  | .ThroughputBytes => netIOToks

/-- The per-kind y-axis title chosen by the `match kind` in `do_test`. -/
def yTitle : TestKind → String
  | .Latency => "Avg. Response Latency (ms)"
  | .ThroughputReq => "Max. Throughput (req./sec.)"
  | .ThroughputBytes => "Max. Throughput (KB/sec.)"

/-- The kind-specific argument contribution (`query_args` closures):
`--num-calls SAMPLES` for latency, `--num-conns SAMPLES` for both
throughput kinds (`throughput_tester`). -/
def kindArgs : TestKind → List String
  | .Latency => ["--num-calls", toString SAMPLES]
  | .ThroughputReq => ["--num-conns", toString SAMPLES]
  | .ThroughputBytes => ["--num-conns", toString SAMPLES]

/-- Digit list to a natural number (base 10). -/
def digitsToNat (ds : List Char) : Nat :=
  ds.foldl (fun n c => n * 10 + (c.toNat - '0'.toNat)) 0

/-- Split a character list into its leading run of ASCII digits and the rest. -/
def spanDigits (s : List Char) : List Char × List Char :=
  (s.takeWhile Char.isDigit, s.dropWhile Char.isDigit)

/-- Optional exponent part `(e|E) Sign? Count` of the `f32` grammar; the
whole remainder must be consumed.  Returns the signed exponent, `some 0`
when the remainder is empty, `none` when malformed. -/
def parseExpOpt (s : List Char) : Option Int :=
  match s with
  | [] => some 0
  | c :: rest =>
    if c = 'e' ∨ c = 'E' then
      let (sgn, r2) : Int × List Char :=
        match rest with
        | '+' :: r => (1, r)
        | '-' :: r => (-1, r)
        | r => (1, r)
      let ds := r2.takeWhile Char.isDigit
      let r3 := r2.dropWhile Char.isDigit
      if ds = [] ∨ r3 ≠ [] then none else some (sgn * (digitsToNat ds : Int))
    else none

/-- The exact value `sign · (mantissa / 10^fracDigits) · 10^e` as a
rational, built from integer arithmetic only. -/
def decimalValue (neg : Bool) (mantissa : Nat) (fracDigits : Nat) (e : Int) : Rat :=
  let m : Int := if neg then -(mantissa : Int) else (mantissa : Int)
  if 0 ≤ e then Rat.divInt (m * (10 : Int) ^ e.toNat) ((10 : Int) ^ fracDigits)
  else Rat.divInt m ((10 : Int) ^ fracDigits * (10 : Int) ^ (-e).toNat)

/-- `Number ::= Count '.'? Count? Exp? | '.' Count Exp?` of the
`f32::from_str` grammar, with the exact decimal value. -/
def parseNumber (neg : Bool) (cs : List Char) : Option Rat :=
  let (ip, rest1) := spanDigits cs
  match rest1 with
  | '.' :: rest2 =>
    let (fp, rest3) := spanDigits rest2
    if ip = [] ∧ fp = [] then none
    else
      match parseExpOpt rest3 with
      | none => none
      | some e =>
        some (decimalValue neg (digitsToNat ip * 10 ^ fp.length + digitsToNat fp) fp.length e)
  | _ =>
    if ip = [] then none
    else
      match parseExpOpt rest1 with
      | none => none
      | some e => some (decimalValue neg (digitsToNat ip) 0 e)

/-- Model of `str::parse::<f32>`:
`Float ::= Sign? ('inf' | 'infinity' | 'nan' | Number)`, with the special
words case-insensitive; the decimal value is kept exactly (rounding to the
nearest binary float, overflow to infinity and underflow to zero are not
modelled — no claim depends on them). -/
def parseF32 (s : String) : Option F32 :=
  match s.toList with
  | [] => none
  | cs =>
    let (neg, body) : Bool × List Char :=
      match cs with
      | '+' :: r => (false, r)
      | '-' :: r => (true, r)
      | r => (false, r)
    let lower := body.map Char.toLower
    if lower = "inf".toList ∨ lower = "infinity".toList then some (.inf neg)
    else if lower = "nan".toList then some .nan
    else
      match parseNumber neg body with
      | some q => some (.num q)
      | none => none

/-- Result of one external-tool execution: whether the exit status was a
success (never inspected by the source), and the captured standard output,
given as `some s` when the bytes are valid UTF-8 decoding to `s` and
`none` when they are not valid UTF-8. -/
structure ProcOutput where
  exitOk : Bool
  stdout : Option String
deriving DecidableEq, Repr

/-- The external-tool oracle: argument list ↦ process result, `none` when
the process cannot be spawned (e.g. `httperf` not found). -/
def Exec := List String → Option ProcOutput

/-- `fn parse_output(output: Output, regex: &str) -> f32` — each `expect`
becomes an error carrying its panic message. -/
def parse_output (output : ProcOutput) (toks : List RTok) : Except String F32 :=
  match output.stdout with
  | none => .error "Test had no output."
  | some raw_out =>
    match findMatch toks raw_out.toList with
    | none => .error "No reply rate in test output."
    | some cap =>
      match parseF32 (String.mk cap) with
      | none => .error "Reply rate from test was not a valid integer."
      | some v => .ok v

/-- `Iterator::reduce(|a, b| format!("{a}+{b}"))` over a word list. -/
def reducePlus : List String → Option String
  | [] => none
  | a :: rest => some (rest.foldl (fun acc b => acc ++ "+" ++ b) a)

/-- The query sequence generated by the sweep loop: for each
`i ∈ [0, n)`, `dictionary[0..=i]` reduced with `+`. -/
def buildQueries (dict : List String) : List (Option String) :=
  (List.range dict.length).map (fun i => reducePlus (dict.take (i + 1)))

/-- The argument list handed to the external tool for one invocation:
the fixed skeleton built on `test_cmd`, then the kind-specific closure. -/
def invokeArgs (server_addr : String) (port : Nat) (kind : TestKind) (query : String) :
    List String :=
  ["--server", server_addr, "--port", toString port, "--uri", "/query?terms=" ++ query]
    ++ kindArgs kind

/-- One iteration of the sweep loop in `do_test`: build the query for
index `i`, invoke the tool, parse the report.  Returns the sample
`(query.len() as f32, rate)` or the panic message, together with the list
of external invocations performed (their argument lists). -/
def sweepStep (exec : Exec) (server_addr : String) (port : Nat) (kind : TestKind)
    (dict : List String) (i : Nat) :
    Except String (F32 × F32) × List (List String) :=
  match reducePlus (dict.take (i + 1)) with
  | none => (.error "Couldn't build query.", [])
  | some query =>
    let args := invokeArgs server_addr port kind query
    match exec args with
    | none => (.error "Failed to execute test.", [args])
    | some out =>
      match parse_output out (kindToks kind) with
      | .error e => (.error e, [args])
      | .ok rate => (.ok (.num ((query.utf8ByteSize : Nat) : Rat), rate), [args])

/-- The sweep loop over a list of indices, accumulating samples in order
and concatenating invocation traces; the first failure aborts. -/
def runQueries (exec : Exec) (server_addr : String) (port : Nat) (kind : TestKind)
    (dict : List String) :
    List Nat → Except String (List (F32 × F32)) × List (List String)
  | [] => (.ok [], [])
  | i :: is =>
    match sweepStep exec server_addr port kind dict i with
    | (.error e, t) => (.error e, t)
    | (.ok s, t) =>
      match runQueries exec server_addr port kind dict is with
      | (.error e, t2) => (.error e, t ++ t2)
      | (.ok rest, t2) => (.ok (s :: rest), t ++ t2)

/-- `for i in 0..dictionary.len()` of `do_test`: the accumulated `buf`. -/
def collectSamples (exec : Exec) (server_addr : String) (port : Nat)
    (kind : TestKind) (dict : List String) :
    Except String (List (F32 × F32)) × List (List String) :=
  runQueries exec server_addr port kind dict (List.range dict.length)

/-- `Vec::sort_by(|a, b| a.partial_cmp(b).unwrap())` modelled as an
ascending insertion sort that fails (`none`) as soon as a needed
comparison is `none` — the `unwrap` panic on NaN.  Insertion step. -/
def insertP (a : F32) : List F32 → Option (List F32)
  | [] => some [a]
  | b :: bs =>
    match pcmp a b with
    | none => none
    | some .gt =>
      match insertP a bs with
      | none => none
      | some l => some (b :: l)
    | some _ => some (a :: b :: bs)

/-- `Vec::sort_by` with a partial comparator: sort or panic. -/
def sortP : List F32 → Option (List F32)
  | [] => some []
  | a :: as =>
    match sortP as with
    | none => none
    | some s => insertP a s

/-- Panic message of `Option::unwrap` on `None` (the `partial_cmp` and
`last()` unwraps). -/
def unwrapMsg : String := "called `Option::unwrap()` on a `None` value"

/-- Panic message of indexing `max_x[0]` on an empty vector. -/
def oobMsg : String := "index out of bounds: the len is 0 but the index is 0"

/-- The bounds computation of `do_test`: sort the x-projection, sort the
y-projection, then `min_x = max_x[0]`, `min_y = max_y[0]`,
`max_x = *max_x.last().unwrap()`, `max_y = *max_y.last().unwrap()`.
Result: `(min_x, max_x, min_y, max_y)`. -/
def computeBounds (buf : List (F32 × F32)) : Except String (F32 × F32 × F32 × F32) :=
  match sortP (buf.map Prod.fst) with
  | none => .error unwrapMsg
  | some xs =>
    match sortP (buf.map Prod.snd) with
    | none => .error unwrapMsg
    | some ys =>
      match xs.head? with
      | none => .error oobMsg
      | some min_x =>
        match ys.head? with
        | none => .error oobMsg
        | some min_y =>
          match xs.getLast? with
          | none => .error unwrapMsg
          | some max_x =>
            match ys.getLast? with
            | none => .error unwrapMsg
            | some max_y => .ok (min_x, max_x, min_y, max_y)

/-- `struct Test` of `main.rs` (`server_port: u16` modelled as `Nat`). -/
structure Test where
  server_addr : String
  server_port : Nat
  dict : List String
  kind : TestKind
  out_file : String
deriving DecidableEq, Repr

/-- What `do_test` hands to the plotters boundary: output file, caption,
the series, and the four axis bounds. -/
structure RenderReq where
  out_file : String
  caption : String
  series : List (F32 × F32)
  min_x : F32
  max_x : F32
  min_y : F32
  max_y : F32
deriving DecidableEq, Repr

/-- `fn do_test(test: Test)` up to the rendering boundary: run the sweep
loop, compute bounds, and assemble the render request; any panic becomes
an error.  Also returns the external invocations performed. -/
def do_test (exec : Exec) (test : Test) :
    Except String RenderReq × List (List String) :=
  match collectSamples exec test.server_addr test.server_port test.kind test.dict with
  | (.error e, tr) => (.error e, tr)
  | (.ok buf, tr) =>
    match computeBounds buf with
    | .error e => (.error e, tr)
    | .ok (min_x, max_x, min_y, max_y) =>
      (.ok { out_file := test.out_file,
             caption := "Index Query Word Length vs " ++ yTitle test.kind,
             series := buf,
             min_x := min_x, max_x := max_x, min_y := min_y, max_y := max_y }, tr)

/-- `str::parse::<u16>`: optional `+` sign, then at least one ASCII digit,
value at most 65535 (overflow is an error). -/
def parseU16 (s : String) : Option Nat :=
  let cs :=
    match s.toList with
    | '+' :: r => r
    | r => r
  if cs = [] ∨ ¬ cs.all Char.isDigit then none
  else
    let v := digitsToNat cs
    if v < 65536 then some v else none

/-- Outcome of `main`: either the usage line printed to standard output,
or the three render requests produced by the `do_test` loop. -/
inductive MainOut where
  | usage (line : String)
  | done (renders : List RenderReq)
deriving DecidableEq, Repr

/-- The `for i in 0..3` loop of `main`: run `do_test` for each configured
(kind, out-file) pair, sequentially, aborting on the first panic. -/
def runTests (exec : Exec) (server_addr : String) (port : Nat) (dict : List String) :
    List (TestKind × String) → Except String (List RenderReq) × List (List String)
  | [] => (.ok [], [])
  | (k, f) :: rest =>
    match do_test exec ⟨server_addr, port, dict, k, f⟩ with
    | (.error e, tr) => (.error e, tr)
    | (.ok r, tr) =>
      match runTests exec server_addr port dict rest with
      | (.error e, tr2) => (.error e, tr ++ tr2)
      | (.ok rs, tr2) => (.ok (r :: rs), tr ++ tr2)

/-- `fn main` on an argument vector (`argv` includes the program name, as
`std::env::args` yields it first): print usage when `args.len() == 1`,
else take the address (`args.nth(1)`), the port (parsed as `u16`) and
the dictionary, and run the three default tests. -/
def mainModel (exec : Exec) (argv : List String) :
    Except String MainOut × List (List String) :=
  match argv with
  | [p] =>
    (.ok (.usage ("./" ++ p ++ " <server_addr> <port_number> <query_word1> <query_word2> ...")), [])
  | [] => (.error "Missing server address.", [])
  | _ :: rest =>
    match rest with
    | [] => (.error "Missing server address.", [])
    | server_addr :: rest2 =>
      match rest2 with
      | [] => (.error "Missing port number.", [])
      | portStr :: dict =>
        match parseU16 portStr with
        | none => (.error "Invalid port number.", [])
        | some port =>
          match runTests exec server_addr port dict (DEFAULT_TESTS.zip OUT_FILES) with
          | (.error e, tr) => (.error e, tr)
          | (.ok rs, tr) => (.ok (.done rs), tr)

/-- Spec-side description of a query (§4.1): the words in order, separated
by `+` — written as a right fold, to be compared with the source's
left-associated `reduce`. -/
def plusJoin : List String → String
  | [] => ""
  | w :: rest =>
    match rest with
    | [] => w
    | _ :: _ => w ++ "+" ++ plusJoin rest

/-- Whether a modelled float is an ordinary number (not NaN, not ±∞). -/
def isNumB : F32 → Bool
  | .num _ => true
  | _ => false

/-- The numeric-value order on modelled floats: both sides are numbers
and the rationals compare. -/
def fle (a b : F32) : Prop := ∃ x y, a = F32.num x ∧ b = F32.num y ∧ x ≤ y

instance : IsAntisymm F32 fle :=
  ⟨fun a b h1 h2 => by
    obtain ⟨x, y, rfl, rfl, hxy⟩ := h1
    obtain ⟨y', x', hy, hx, hyx⟩ := h2
    obtain rfl : y = y' := by injection hy
    obtain rfl : x = x' := by injection hx
    exact congrArg F32.num (le_antisymm hxy hyx)⟩

/-- The numeric values of a float list, in order (the projection the spec
speaks about; on an all-numeric list this is the list itself). -/
def ratProj (l : List F32) : List Rat :=
  l.filterMap (fun a => match a with | .num q => some q | _ => none)

/-- `m` is the minimum of the values `l`. -/
def isMinOf (m : Rat) (l : List Rat) : Prop := m ∈ l ∧ ∀ x ∈ l, m ≤ x

/-- `M` is the maximum of the values `l`. -/
def isMaxOf (M : Rat) (l : List Rat) : Prop := M ∈ l ∧ ∀ x ∈ l, x ≤ M

/-- Test oracle: every invocation succeeds with a well-formed latency
report whose average is `2.0`. -/
def execConnTime : Exec := fun _ => some ⟨true, some "Connection time: min 1 avg 2.0 max 3"⟩

/-- Test oracle: the tool always exits abnormally (`exitOk := false`) yet
still prints a well-formed latency report. -/
def execAbnormal : Exec := fun _ => some ⟨false, some "Connection time: min 1 avg 2.0 max 3"⟩

/-- Test oracle: the report for the two-word query carries a literal
`NaN` average; the one-word query gets an ordinary report. -/
def execNaN : Exec := fun args =>
  if args.contains "/query?terms=a+b" then some ⟨true, some "Connection time: min 1 avg NaN max 3"⟩
  else some ⟨true, some "Connection time: min 1 avg 1.0 max 3"⟩

theorem foldl_plus_eq_plusJoin (rest : List String) (a : String) :
    rest.foldl (fun acc b => acc ++ "+" ++ b) a = plusJoin (a :: rest) := by
  induction rest generalizing a with
  | nil => simp [plusJoin]
  | cons b t ih =>
    simp only [List.foldl_cons]
    rw [ih]
    cases t with
    | nil => simp [plusJoin]
    | cons c u => simp [plusJoin, String.append_assoc]

theorem reducePlus_eq_plusJoin (ws : List String) (h : ws ≠ []) :
    reducePlus ws = some (plusJoin ws) := by
  cases ws with
  | nil => exact absurd rfl h
  | cons a rest => simp [reducePlus, foldl_plus_eq_plusJoin]

/-- C1: for every non-empty dictionary of length n, the query builder
produces exactly n queries, and query i (0-based) is exactly the first
i+1 dictionary words joined by the separator `+`, preserving original
word order and spelling. -/
theorem queryBuilderPrefixJoins (dict : List String) (h : dict ≠ []) :
    (buildQueries dict).length = dict.length ∧
    ∀ i, i < dict.length →
      (buildQueries dict)[i]? = some (some (plusJoin (dict.take (i + 1)))) := by
  constructor
  · simp [buildQueries]
  · intro i hi
    have hne : dict.take (i + 1) ≠ [] := by
      cases dict with
      | nil => exact absurd rfl h
      | cons a t => simp [List.take_succ_cons]
    simp [buildQueries, List.getElem?_range, hi, reducePlus_eq_plusJoin _ hne]

/-- Witness for C1 at the dictionary `["cat", "dog"]`. -/
theorem queryBuilderPrefixJoins_witness :
    (buildQueries ["cat", "dog"]).length = (["cat", "dog"] : List String).length ∧
    ∀ i, i < (["cat", "dog"] : List String).length →
      (buildQueries ["cat", "dog"])[i]? = some (some (plusJoin (["cat", "dog"].take (i + 1)))) :=
  queryBuilderPrefixJoins ["cat", "dog"] (by decide)

/-- C2: the report parser applies the kind-specific pattern and parses
capture group 1 as a base-10 float: the Latency pattern extracts 12.34
from a `Connection time: ... avg 12.34 max ...` report, the
ThroughputReq pattern extracts 567.8 from `Request rate: 567.8 req/s`,
and the ThroughputBytes pattern extracts 9.1 from `Net I/O: 9.1 KB/s`. -/
theorem reportParserExtractsMetrics :
    parse_output ⟨true, some "Connection time: min 10.0 avg 12.34 max 15.0"⟩ (kindToks .Latency)
      = .ok (F32.num 12.34) ∧
    parse_output ⟨true, some "Request rate: 567.8 req/s"⟩ (kindToks .ThroughputReq)
      = .ok (F32.num 567.8) ∧
    parse_output ⟨true, some "Net I/O: 9.1 KB/s"⟩ (kindToks .ThroughputBytes)
      = .ok (F32.num 9.1) := by
  refine ⟨?_, ?_, ?_⟩
  · rw [show (12.34 : Rat) = Rat.divInt 617 50 by norm_num [Rat.divInt_eq_div]]
    decide
  · rw [show (567.8 : Rat) = Rat.divInt 2839 5 by norm_num [Rat.divInt_eq_div]]
    decide
  · rw [show (9.1 : Rat) = Rat.divInt 91 10 by norm_num [Rat.divInt_eq_div]]
    decide

theorem sweepStep_ok (exec : Exec) (addr : String) (port : Nat) (kind : TestKind)
    (dict : List String) (i : Nat) (s : F32 × F32) (t : List (List String))
    (h : sweepStep exec addr port kind dict i = (.ok s, t)) :
    ∃ q rate, reducePlus (dict.take (i + 1)) = some q ∧
      s = (.num ((q.utf8ByteSize : Nat) : Rat), rate) ∧
      t = [invokeArgs addr port kind q] := by
  simp only [sweepStep] at h
  cases hq : reducePlus (dict.take (i + 1)) with
  | none => simp [hq] at h
  | some q =>
    simp only [hq] at h
    cases hx : exec (invokeArgs addr port kind q) with
    | none => simp [hx] at h
    | some out =>
      simp only [hx] at h
      cases hp : parse_output out (kindToks kind) with
      | error e => simp [hp] at h
      | ok rate =>
        simp only [hp] at h
        simp at h
        exact ⟨q, rate, rfl, h.1.symm, h.2.symm⟩

theorem sweepStep_trace (exec : Exec) (addr : String) (port : Nat) (kind : TestKind)
    (dict : List String) (i : Nat) (a : List String)
    (h : a ∈ (sweepStep exec addr port kind dict i).2) :
    ∃ q, reducePlus (dict.take (i + 1)) = some q ∧ a = invokeArgs addr port kind q := by
  simp only [sweepStep] at h
  cases hq : reducePlus (dict.take (i + 1)) with
  | none => simp [hq] at h
  | some q =>
    simp only [hq] at h
    refine ⟨q, rfl, ?_⟩
    cases hx : exec (invokeArgs addr port kind q) with
    | none => simp [hx] at h; exact h
    | some out =>
      simp only [hx] at h
      cases hp : parse_output out (kindToks kind) with
      | error e => simp [hp] at h; exact h
      | ok rate => simp [hp] at h; exact h

theorem runQueries_ok_samples (exec : Exec) (addr : String) (port : Nat) (kind : TestKind)
    (dict : List String) (is : List Nat) :
    ∀ (buf : List (F32 × F32)) (tr : List (List String)),
      runQueries exec addr port kind dict is = (.ok buf, tr) →
      buf.length = is.length ∧
      ∀ (j k : Nat), is[j]? = some k → ∃ q rate,
        reducePlus (dict.take (k + 1)) = some q ∧
        buf[j]? = some (F32.num ((q.utf8ByteSize : Nat) : Rat), rate) := by
  induction is with
  | nil =>
    intro buf tr h
    simp only [runQueries] at h
    obtain ⟨h1, h2⟩ := Prod.mk.injEq .. ▸ h
    cases h
    simp
  | cons i it ih =>
    intro buf tr h
    simp only [runQueries] at h
    cases hs : sweepStep exec addr port kind dict i with
    | mk r t =>
      cases r with
      | error e => rw [hs] at h; simp at h
      | ok s =>
        rw [hs] at h
        cases hr : runQueries exec addr port kind dict it with
        | mk r2 t2 =>
          cases r2 with
          | error e => rw [hr] at h; simp at h
          | ok rest =>
            rw [hr] at h
            simp at h
            obtain ⟨hbuf, htr⟩ := h
            subst hbuf
            obtain ⟨hlen, hpt⟩ := ih rest t2 hr
            refine ⟨by simp [hlen], ?_⟩
            intro j k hk
            cases j with
            | zero =>
              simp at hk
              subst hk
              obtain ⟨q, rate, hq, hsv, _⟩ := sweepStep_ok exec addr port kind dict i s t hs
              exact ⟨q, rate, hq, by simp [hsv]⟩
            | succ j =>
              simp at hk
              obtain ⟨q, rate, hq, hb⟩ := hpt j k hk
              exact ⟨q, rate, hq, by simpa using hb⟩

theorem runQueries_trace_shape (exec : Exec) (addr : String) (port : Nat) (kind : TestKind)
    (dict : List String) (is : List Nat) :
    ∀ (a : List String), a ∈ (runQueries exec addr port kind dict is).2 →
      ∃ k q, k ∈ is ∧ reducePlus (dict.take (k + 1)) = some q ∧
        a = invokeArgs addr port kind q := by
  induction is with
  | nil => intro a ha; simp [runQueries] at ha
  | cons i it ih =>
    intro a ha
    simp only [runQueries] at ha
    cases hs : sweepStep exec addr port kind dict i with
    | mk r t =>
      cases r with
      | error e =>
        rw [hs] at ha
        simp at ha
        obtain ⟨q, hq, haq⟩ := sweepStep_trace exec addr port kind dict i a (by rw [hs]; exact ha)
        exact ⟨i, q, by simp, hq, haq⟩
      | ok s =>
        rw [hs] at ha
        cases hr : runQueries exec addr port kind dict it with
        | mk r2 t2 =>
          cases r2 with
          | error e =>
            rw [hr] at ha
            simp at ha
            rcases ha with ha | ha
            · obtain ⟨q, hq, haq⟩ :=
                sweepStep_trace exec addr port kind dict i a (by rw [hs]; exact ha)
              exact ⟨i, q, by simp, hq, haq⟩
            · obtain ⟨k, q, hk, hq, haq⟩ := ih a (by rw [hr]; exact ha)
              exact ⟨k, q, by simp [hk], hq, haq⟩
          | ok rest =>
            rw [hr] at ha
            simp at ha
            rcases ha with ha | ha
            · obtain ⟨q, hq, haq⟩ :=
                sweepStep_trace exec addr port kind dict i a (by rw [hs]; exact ha)
              exact ⟨i, q, by simp, hq, haq⟩
            · obtain ⟨k, q, hk, hq, haq⟩ := ih a (by rw [hr]; exact ha)
              exact ⟨k, q, by simp [hk], hq, haq⟩

/-- C4, counterexample: a successful sweep over the dictionary `["é"]`
yields the sample x-value 2 — the UTF-8 byte length of the one-character
query `é` — not its character length 1 as the claim states. -/
theorem sampleXIsByteLengthNotCharLength :
    (collectSamples execConnTime "h" 80 .Latency ["é"]).1 = .ok [(F32.num 2, F32.num 2)] ∧
    (plusJoin ["é"]).length = 1 ∧
    F32.num (((plusJoin ["é"]).length : Nat) : Rat) ≠ F32.num 2 :=
  ⟨by decide, by decide, by decide⟩

/-- C4, amended: for every successful sweep, the series has exactly one
sample per dictionary position, samples appear in dictionary-prefix
generation order, and sample i's x-value is the UTF-8 byte length of
query i (which equals the character count only for ASCII queries). -/
theorem sweepSeriesShape (exec : Exec) (addr : String) (port : Nat) (kind : TestKind)
    (dict : List String) (buf : List (F32 × F32)) (tr : List (List String))
    (h : collectSamples exec addr port kind dict = (.ok buf, tr)) :
    buf.length = dict.length ∧
    ∀ i, i < dict.length → ∃ q rate,
      reducePlus (dict.take (i + 1)) = some q ∧
      buf[i]? = some (F32.num ((q.utf8ByteSize : Nat) : Rat), rate) := by
  have hh := runQueries_ok_samples exec addr port kind dict (List.range dict.length) buf tr h
  exact ⟨by simpa using hh.1, fun i hi => hh.2 i i (by simp [List.getElem?_range, hi])⟩

/-- Witness for the amended C4 on a concrete two-word sweep. -/
theorem sweepSeriesShape_witness :
    ([(F32.num 3, F32.num 2), (F32.num 7, F32.num 2)] : List (F32 × F32)).length
      = (["cat", "dog"] : List String).length ∧
    ∀ i, i < (["cat", "dog"] : List String).length → ∃ q rate,
      reducePlus (["cat", "dog"].take (i + 1)) = some q ∧
      ([(F32.num 3, F32.num 2), (F32.num 7, F32.num 2)] : List (F32 × F32))[i]?
        = some (F32.num ((q.utf8ByteSize : Nat) : Rat), rate) :=
  sweepSeriesShape execConnTime "h" 80 .Latency ["cat", "dog"]
    [(F32.num 3, F32.num 2), (F32.num 7, F32.num 2)]
    [invokeArgs "h" 80 .Latency "cat", invokeArgs "h" 80 .Latency "cat+dog"] (by decide)

/-- C5: every external invocation of a sweep receives the fixed skeleton
`--server <addr> --port <port> --uri /query?terms=<query>` followed by
exactly `--num-calls 10` for Latency and `--num-conns 10` for the two
throughput kinds. -/
theorem invokerArgsShape (exec : Exec) (addr : String) (port : Nat) (kind : TestKind)
    (dict : List String) (a : List String)
    (h : a ∈ (collectSamples exec addr port kind dict).2) :
    ∃ i q, i < dict.length ∧ reducePlus (dict.take (i + 1)) = some q ∧
      a = ["--server", addr, "--port", toString port, "--uri", "/query?terms=" ++ q]
        ++ (match kind with
            | .Latency => ["--num-calls", "10"]
            | .ThroughputBytes => ["--num-conns", "10"]
            | .ThroughputReq => ["--num-conns", "10"]) := by
  obtain ⟨k, q, hk, hq, haq⟩ := runQueries_trace_shape exec addr port kind dict
    (List.range dict.length) a h
  refine ⟨k, q, by simpa using hk, hq, ?_⟩
  subst haq
  cases kind <;> rfl

/-- Witness for C5 on a concrete one-word Latency sweep. -/
theorem invokerArgsShape_witness :
    ∃ i q, i < (["cat"] : List String).length ∧ reducePlus (["cat"].take (i + 1)) = some q ∧
      ["--server", "h", "--port", "80", "--uri", "/query?terms=cat", "--num-calls", "10"]
        = ["--server", "h", "--port", toString 80, "--uri", "/query?terms=" ++ q]
          ++ ["--num-calls", "10"] :=
  invokerArgsShape execConnTime "h" 80 .Latency ["cat"]
    ["--server", "h", "--port", "80", "--uri", "/query?terms=cat", "--num-calls", "10"]
    (by decide)

/-- C6, counterexample: the tool's exit status is never inspected — an
invocation whose process exits abnormally but prints a well-formed
report is accepted and the sweep succeeds, with no failure signalled. -/
theorem abnormalExitNotDetected :
    (collectSamples execAbnormal "h" 80 .Latency ["cat"]).1 = .ok [(F32.num 3, F32.num 2)] := by
  decide

/-- C6, amended: the test invoker signals a fatal failure when the
external tool cannot be spawned (`Failed to execute test.`) and when the
captured standard output is not valid UTF-8 (`Test had no output.`);
the exit status is never inspected, so an abnormal exit by itself does
not signal an invocation failure. -/
theorem invokerFailureCases :
    (∀ (exec : Exec) (addr : String) (port : Nat) (kind : TestKind) (dict : List String)
        (i : Nat) (q : String), reducePlus (dict.take (i + 1)) = some q →
        exec (invokeArgs addr port kind q) = none →
        (sweepStep exec addr port kind dict i).1 = .error "Failed to execute test.") ∧
    (∀ (exec : Exec) (addr : String) (port : Nat) (kind : TestKind) (dict : List String)
        (i : Nat) (q : String) (b : Bool), reducePlus (dict.take (i + 1)) = some q →
        exec (invokeArgs addr port kind q) = some ⟨b, none⟩ →
        (sweepStep exec addr port kind dict i).1 = .error "Test had no output.") ∧
    (∀ (b b' : Bool) (s : Option String) (toks : List RTok),
        parse_output ⟨b, s⟩ toks = parse_output ⟨b', s⟩ toks) := by
  refine ⟨?_, ?_, ?_⟩
  · intro exec addr port kind dict i q hq hexec
    simp [sweepStep, hq, hexec]
  · intro exec addr port kind dict i q b hq hexec
    simp [sweepStep, hq, hexec, parse_output]
  · intro b b' s toks
    rfl

/-- Witness for the amended C6 at concrete oracles. -/
theorem invokerFailureCases_witness :
    (sweepStep (fun _ => none) "h" 80 .Latency ["cat"] 0).1
      = .error "Failed to execute test." ∧
    (sweepStep (fun _ => some ⟨true, none⟩) "h" 80 .Latency ["cat"] 0).1
      = .error "Test had no output." ∧
    parse_output ⟨true, some "x"⟩ (kindToks .Latency)
      = parse_output ⟨false, some "x"⟩ (kindToks .Latency) :=
  ⟨invokerFailureCases.1 (fun _ => none) "h" 80 .Latency ["cat"] 0 "cat" (by decide) rfl,
   invokerFailureCases.2.1 (fun _ => some ⟨true, none⟩) "h" 80 .Latency ["cat"] 0 "cat" true
     (by decide) rfl,
   invokerFailureCases.2.2 true false (some "x") (kindToks .Latency)⟩

/-- C7: the report parser fails with a signalled failure and returns no
value, both when the report does not match the kind-specific pattern
(`No reply rate in test output.`) and when the captured text is not a
valid base-10 number (`Reply rate from test was not a valid integer.`). -/
theorem parserSignalsFailures :
    (∀ (b : Bool) (s : String) (toks : List RTok), findMatch toks s.toList = none →
      parse_output ⟨b, some s⟩ toks = .error "No reply rate in test output.") ∧
    (∀ (b : Bool) (s : String) (toks : List RTok) (cap : List Char),
      findMatch toks s.toList = some cap → parseF32 (String.mk cap) = none →
      parse_output ⟨b, some s⟩ toks = .error "Reply rate from test was not a valid integer.") := by
  constructor
  · intro b s toks h
    simp only [String.toList] at h
    simp [parse_output, h]
  · intro b s toks cap h hp
    simp only [String.toList] at h
    simp [parse_output, h, hp]

/-- Witness for C7: a report with no metric, and an `avg N/A max` report. -/
theorem parserSignalsFailures_witness :
    parse_output ⟨true, some "no metric here"⟩ (kindToks .Latency)
      = .error "No reply rate in test output." ∧
    parse_output ⟨true, some "Connection time: x avg N/A max"⟩ (kindToks .Latency)
      = .error "Reply rate from test was not a valid integer." :=
  ⟨parserSignalsFailures.1 true "no metric here" (kindToks .Latency) (by decide),
   parserSignalsFailures.2 true "Connection time: x avg N/A max" (kindToks .Latency)
     "N/A".toList (by decide) (by decide)⟩

/-- C8, counterexample: with one non-program argument (fewer than 3) the
program does not print the usage line and exit cleanly — it panics with
`Missing port number.`. -/
theorem oneArgPanicsInsteadOfUsage :
    (mainModel (fun _ => none) ["prog", "127.0.0.1"]).1 = .error "Missing port number." := by
  decide

/-- C8, amended: only an invocation with exactly zero non-program
arguments prints the one-line usage message to standard output and exits
without error, performing zero external invocations; with one
non-program argument the program aborts with an error instead. -/
theorem zeroArgsPrintsUsageNoInvocations (exec : Exec) (p a : String) :
    mainModel exec [p] =
      (.ok (.usage ("./" ++ p ++ " <server_addr> <port_number> <query_word1> <query_word2> ...")), []) ∧
    mainModel exec [p, a] = (.error "Missing port number.", []) :=
  ⟨rfl, rfl⟩

/-- C9, counterexample: on an empty dictionary the sweep does not refuse
to render — it reaches the bounds computation, whose indexing of the
first element of the empty sorted series panics. -/
theorem emptyDictReachesBoundsIndexing :
    (do_test (fun _ => none) ⟨"127.0.0.1", 8080, [], .Latency, "out.png"⟩).1 = .error oobMsg := by
  decide

/-- C9, amended: there is no empty-dictionary guard; for every oracle an
empty dictionary makes `do_test` reach the bounds computation and panic
at `max_x[0]` (index out of bounds), after zero external invocations and
before anything is handed to the renderer. -/
theorem emptyDictPanicsBeforeRender (exec : Exec) (addr : String) (port : Nat)
    (kind : TestKind) (f : String) :
    do_test exec ⟨addr, port, [], kind, f⟩ = (.error oobMsg, []) ∧
    computeBounds [] = .error oobMsg :=
  ⟨rfl, rfl⟩

/-- C10: the float parser accepts the literal `NaN`, an `avg NaN max`
report therefore parses to NaN, and the subsequent bounds sort panics on
it, because the comparison unwraps a partial comparison that is `None`
for NaN. -/
theorem nanReportPanicsBoundsSort :
    parseF32 "NaN" = some F32.nan ∧
    parse_output ⟨true, some "Connection time: min 1 avg NaN max 3"⟩ (kindToks .Latency)
      = .ok F32.nan ∧
    (do_test execNaN ⟨"h", 80, ["a", "b"], .Latency, "out.png"⟩).1 = .error unwrapMsg :=
  ⟨by decide, by decide, by decide⟩

theorem fle_trans {a b c : F32} (h1 : fle a b) (h2 : fle b c) : fle a c := by
  obtain ⟨x, y, rfl, rfl, hxy⟩ := h1
  obtain ⟨y', z, hy, rfl, hyz⟩ := h2
  obtain rfl : y = y' := by injection hy
  exact ⟨x, z, rfl, rfl, hxy.trans hyz⟩

theorem rcompare_gt {x y : Rat} (h : rcompare x y = .gt) : y < x := by
  unfold rcompare at h
  split at h
  · exact absurd h (by simp)
  · split at h
    · exact absurd h (by simp)
    · exact lt_of_le_of_ne (not_lt.mp (by assumption)) (Ne.symm (by assumption))

theorem rcompare_not_gt {x y : Rat} (h : rcompare x y ≠ .gt) : x ≤ y := by
  unfold rcompare at h
  split at h
  · exact le_of_lt (by assumption)
  · split at h
    · exact le_of_eq (by assumption)
    · exact absurd rfl h

theorem pcmp_num_num (x y : Rat) : pcmp (F32.num x) (F32.num y) = some (rcompare x y) := rfl

theorem insertP_perm (a : F32) : ∀ (l l' : List F32), insertP a l = some l' → (a :: l).Perm l' := by
  intro l
  induction l with
  | nil =>
    intro l' h
    simp only [insertP] at h
    cases h
    exact List.Perm.refl _
  | cons b bs ih =>
    intro l' h
    simp only [insertP] at h
    cases hc : pcmp a b with
    | none => rw [hc] at h; cases h
    | some o =>
      rw [hc] at h
      cases o with
      | gt =>
        simp only at h
        cases hm : insertP a bs with
        | none => rw [hm] at h; cases h
        | some m =>
          rw [hm] at h
          cases h
          exact (List.Perm.swap b a bs).trans ((ih m hm).cons b)
      | lt => simp only at h; cases h; exact List.Perm.refl _
      | eq => simp only at h; cases h; exact List.Perm.refl _

theorem insertP_allNum_sorted (a : F32) (ha : isNumB a = true) :
    ∀ (l : List F32), (∀ b ∈ l, isNumB b = true) → l.Sorted fle →
      ∃ l', insertP a l = some l' ∧ l'.Sorted fle := by
  intro l
  induction l with
  | nil => intro _ _; exact ⟨[a], rfl, List.sorted_singleton a⟩
  | cons b bs ih =>
    intro hnum hsort
    obtain ⟨x, rfl⟩ : ∃ x, a = F32.num x := by
      cases a with
      | num q => exact ⟨q, rfl⟩
      | nan => simp [isNumB] at ha
      | inf n => simp [isNumB] at ha
    obtain ⟨y, rfl⟩ : ∃ y, b = F32.num y := by
      have hb := hnum b (by simp)
      cases b with
      | num q => exact ⟨q, rfl⟩
      | nan => simp [isNumB] at hb
      | inf n => simp [isNumB] at hb
    rw [List.sorted_cons] at hsort
    obtain ⟨hball, hbs⟩ := hsort
    by_cases hgt : rcompare x y = .gt
    · obtain ⟨m, hm, hmsort⟩ := ih (fun c hc => hnum c (by simp [hc])) hbs
      refine ⟨F32.num y :: m, ?_, ?_⟩
      · simp only [insertP, pcmp_num_num, hgt, hm]
      · rw [List.sorted_cons]
        refine ⟨?_, hmsort⟩
        intro c hc
        have hcm : c ∈ F32.num x :: bs := (insertP_perm _ _ _ hm).symm.mem_iff.mp hc
        rcases List.mem_cons.mp hcm with rfl | hcbs
        · exact ⟨y, x, rfl, rfl, le_of_lt (rcompare_gt hgt)⟩
        · exact hball c hcbs
    · refine ⟨F32.num x :: F32.num y :: bs, ?_, ?_⟩
      · simp only [insertP, pcmp_num_num]
      · rw [List.sorted_cons]
        refine ⟨?_, List.sorted_cons.mpr ⟨hball, hbs⟩⟩
        intro c hc
        have hxy : x ≤ y := rcompare_not_gt hgt
        rcases List.mem_cons.mp hc with rfl | hcbs
        · exact ⟨x, y, rfl, rfl, hxy⟩
        · exact fle_trans ⟨x, y, rfl, rfl, hxy⟩ (hball c hcbs)

theorem sortP_allNum : ∀ (l : List F32), (∀ a ∈ l, isNumB a = true) →
    ∃ s, sortP l = some s ∧ s.Sorted fle ∧ l.Perm s := by
  intro l
  induction l with
  | nil => intro _; exact ⟨[], rfl, List.sorted_nil, List.Perm.refl _⟩
  | cons a as ih =>
    intro hnum
    obtain ⟨s0, hs0, hsort0, hperm0⟩ := ih (fun c hc => hnum c (by simp [hc]))
    have hs0num : ∀ b ∈ s0, isNumB b = true :=
      fun b hb => hnum b (by simp [hperm0.symm.mem_iff.mp hb])
    obtain ⟨s, hs, hsort⟩ := insertP_allNum_sorted a (hnum a (by simp)) s0 hs0num hsort0
    refine ⟨s, ?_, hsort, ?_⟩
    · simp only [sortP, hs0, hs]
    · exact (hperm0.cons a).trans (insertP_perm a s0 s hs)

theorem sortP_perm_eq (l l' : List F32) (h : ∀ a ∈ l, isNumB a = true) (hp : l.Perm l') :
    sortP l = sortP l' := by
  obtain ⟨s, hs, hsort, hperm⟩ := sortP_allNum l h
  obtain ⟨s', hs', hsort', hperm'⟩ := sortP_allNum l' (fun a ha => h a (hp.symm.mem_iff.mp ha))
  rw [hs, hs']
  exact congrArg some
    (List.eq_of_perm_of_sorted (hperm.symm.trans (hp.trans hperm')) hsort hsort')

theorem sorted_head_min (s : List F32) (hs : s.Sorted fle) (m : F32) (hm : s.head? = some m) :
    ∀ x ∈ s, x = m ∨ fle m x := by
  cases s with
  | nil => cases hm
  | cons a t =>
    obtain rfl : a = m := by injection hm
    intro x hx
    rcases List.mem_cons.mp hx with rfl | hxt
    · exact Or.inl rfl
    · exact Or.inr ((List.sorted_cons.mp hs).1 x hxt)

theorem sorted_getLast_max : ∀ (s : List F32), s.Sorted fle → ∀ (M : F32),
    s.getLast? = some M → ∀ x ∈ s, x = M ∨ fle x M := by
  intro s
  induction s with
  | nil => intro _ M hM; cases hM
  | cons a t ih =>
    intro hs M hM x hx
    cases t with
    | nil =>
      obtain rfl : a = M := by injection hM
      rcases List.mem_cons.mp hx with rfl | hxt
      · exact Or.inl rfl
      · cases hxt
    | cons b u =>
      rw [List.getLast?_cons_cons] at hM
      rcases List.mem_cons.mp hx with rfl | hxt
      · exact Or.inr ((List.sorted_cons.mp hs).1 M (List.mem_of_mem_getLast? hM))
      · exact ih (List.sorted_cons.mp hs).2 M hM x hxt

theorem mem_ratProj (l : List F32) (q : Rat) : q ∈ ratProj l ↔ F32.num q ∈ l := by
  unfold ratProj
  rw [List.mem_filterMap]
  constructor
  · rintro ⟨a, ha, hfa⟩
    cases a with
    | num r =>
      simp only [Option.some.injEq] at hfa
      subst hfa
      exact ha
    | nan => simp at hfa
    | inf b => simp at hfa
  · intro h
    exact ⟨F32.num q, h, rfl⟩

theorem num_mem_of_allNum {l : List F32} (h : ∀ a ∈ l, isNumB a = true) {a : F32}
    (ha : a ∈ l) : ∃ q : Rat, a = F32.num q := by
  have := h a ha
  cases a with
  | num q => exact ⟨q, rfl⟩
  | nan => simp [isNumB] at this
  | inf b => simp [isNumB] at this

theorem sortP_minmax (l : List F32) (h : ∀ a ∈ l, isNumB a = true) (hne : l ≠ []) :
    ∃ (s : List F32) (mn mx : Rat),
      sortP l = some s ∧ s.head? = some (F32.num mn) ∧ s.getLast? = some (F32.num mx) ∧
      isMinOf mn (ratProj l) ∧ isMaxOf mx (ratProj l) := by
  obtain ⟨s, hs, hsort, hperm⟩ := sortP_allNum l h
  have hsnum : ∀ a ∈ s, isNumB a = true := fun a ha => h a (hperm.symm.mem_iff.mp ha)
  have hsne : s ≠ [] := by
    intro hE
    subst hE
    exact hne (List.length_eq_zero.mp (hperm.length_eq.trans rfl))
  obtain ⟨hd, tl, rfl⟩ := List.exists_cons_of_ne_nil hsne
  obtain ⟨mn, rfl⟩ := num_mem_of_allNum hsnum (List.mem_cons_self hd tl)
  have hlast : (F32.num mn :: tl).getLast? = some ((F32.num mn :: tl).getLast (by simp)) :=
    List.getLast?_eq_getLast _ _
  obtain ⟨mx, hmx⟩ := num_mem_of_allNum hsnum (List.getLast_mem (l := F32.num mn :: tl) (by simp))
  rw [hmx] at hlast
  refine ⟨F32.num mn :: tl, mn, mx, hs, rfl, hlast, ⟨?_, ?_⟩, ⟨?_, ?_⟩⟩
  · exact (mem_ratProj l mn).mpr (hperm.symm.mem_iff.mp (List.mem_cons_self _ _))
  · intro x hx
    have hxl : F32.num x ∈ F32.num mn :: tl :=
      hperm.mem_iff.mp ((mem_ratProj l x).mp hx)
    rcases sorted_head_min _ hsort (F32.num mn) rfl (F32.num x) hxl with hEq | hLe
    · exact le_of_eq (by injection hEq.symm)
    · obtain ⟨u, v, hu, hv, huv⟩ := hLe
      obtain rfl : mn = u := by injection hu
      obtain rfl : x = v := by injection hv
      exact huv
  · refine (mem_ratProj l mx).mpr (hperm.symm.mem_iff.mp ?_)
    rw [← hmx]
    exact List.getLast_mem _
  · intro x hx
    have hxl : F32.num x ∈ F32.num mn :: tl :=
      hperm.mem_iff.mp ((mem_ratProj l x).mp hx)
    rcases sorted_getLast_max _ hsort (F32.num mx) hlast (F32.num x) hxl with hEq | hLe
    · exact le_of_eq (by injection hEq)
    · obtain ⟨u, v, hu, hv, huv⟩ := hLe
      obtain rfl : x = u := by injection hu
      obtain rfl : mx = v := by injection hv
      exact huv

theorem computeBounds_allNum (buf : List (F32 × F32))
    (hx : ∀ a ∈ buf.map Prod.fst, isNumB a = true)
    (hy : ∀ a ∈ buf.map Prod.snd, isNumB a = true)
    (hne : buf ≠ []) :
    ∃ mnx mxx mny mxy : Rat,
      computeBounds buf = .ok (F32.num mnx, F32.num mxx, F32.num mny, F32.num mxy) ∧
      isMinOf mnx (ratProj (buf.map Prod.fst)) ∧ isMaxOf mxx (ratProj (buf.map Prod.fst)) ∧
      isMinOf mny (ratProj (buf.map Prod.snd)) ∧ isMaxOf mxy (ratProj (buf.map Prod.snd)) := by
  obtain ⟨sx, mnx, mxx, hsx, hheadx, hlastx, hminx, hmaxx⟩ :=
    sortP_minmax (buf.map Prod.fst) hx (by simpa using hne)
  obtain ⟨sy, mny, mxy, hsy, hheady, hlasty, hminy, hmaxy⟩ :=
    sortP_minmax (buf.map Prod.snd) hy (by simpa using hne)
  refine ⟨mnx, mxx, mny, mxy, ?_, hminx, hmaxx, hminy, hmaxy⟩
  simp only [computeBounds, hsx, hsy, hheadx, hheady, hlastx, hlasty]

theorem computeBounds_perm_inv (buf buf' : List (F32 × F32))
    (hx : ∀ a ∈ buf.map Prod.fst, isNumB a = true)
    (hy : ∀ a ∈ buf.map Prod.snd, isNumB a = true)
    (hp : buf.Perm buf') :
    computeBounds buf = computeBounds buf' := by
  unfold computeBounds
  rw [sortP_perm_eq _ _ hx (hp.map Prod.fst), sortP_perm_eq _ _ hy (hp.map Prod.snd)]

/-- C3: bounds are computed by independently taking the minimum and
maximum of the x-projection and the y-projection of the series, with no
sortedness assumption: the example series `[(3,1),(7,5),(5,2)]` yields
min_x=3, max_x=7, min_y=1, max_y=5; for every NaN-free series the four
bounds are the projections' minima and maxima; and the result is
invariant under permutation of the samples. -/
theorem boundsIndependentMinMax :
    (computeBounds [(F32.num 3, F32.num 1), (F32.num 7, F32.num 5), (F32.num 5, F32.num 2)]
      = .ok (F32.num 3, F32.num 7, F32.num 1, F32.num 5)) ∧
    (∀ buf : List (F32 × F32), (∀ a ∈ buf.map Prod.fst, isNumB a = true) →
      (∀ a ∈ buf.map Prod.snd, isNumB a = true) → buf ≠ [] →
      ∃ mnx mxx mny mxy : Rat,
        computeBounds buf = .ok (F32.num mnx, F32.num mxx, F32.num mny, F32.num mxy) ∧
        isMinOf mnx (ratProj (buf.map Prod.fst)) ∧ isMaxOf mxx (ratProj (buf.map Prod.fst)) ∧
        isMinOf mny (ratProj (buf.map Prod.snd)) ∧ isMaxOf mxy (ratProj (buf.map Prod.snd))) ∧
    (∀ buf buf' : List (F32 × F32), (∀ a ∈ buf.map Prod.fst, isNumB a = true) →
      (∀ a ∈ buf.map Prod.snd, isNumB a = true) → buf.Perm buf' →
      computeBounds buf = computeBounds buf') :=
  ⟨by decide, computeBounds_allNum, computeBounds_perm_inv⟩

/-- Witness for C3 at the spec's example series and one permutation. -/
theorem boundsIndependentMinMax_witness :
    (∃ mnx mxx mny mxy : Rat,
      computeBounds [(F32.num 3, F32.num 1), (F32.num 7, F32.num 5), (F32.num 5, F32.num 2)]
        = .ok (F32.num mnx, F32.num mxx, F32.num mny, F32.num mxy) ∧
      isMinOf mnx (ratProj ([(F32.num 3, F32.num 1), (F32.num 7, F32.num 5),
        (F32.num 5, F32.num 2)].map Prod.fst)) ∧
      isMaxOf mxx (ratProj ([(F32.num 3, F32.num 1), (F32.num 7, F32.num 5),
        (F32.num 5, F32.num 2)].map Prod.fst)) ∧
      isMinOf mny (ratProj ([(F32.num 3, F32.num 1), (F32.num 7, F32.num 5),
        (F32.num 5, F32.num 2)].map Prod.snd)) ∧
      isMaxOf mxy (ratProj ([(F32.num 3, F32.num 1), (F32.num 7, F32.num 5),
        (F32.num 5, F32.num 2)].map Prod.snd))) ∧
    computeBounds [(F32.num 3, F32.num 1), (F32.num 7, F32.num 5), (F32.num 5, F32.num 2)]
      = computeBounds [(F32.num 7, F32.num 5), (F32.num 3, F32.num 1), (F32.num 5, F32.num 2)] :=
  ⟨boundsIndependentMinMax.2.1
      [(F32.num 3, F32.num 1), (F32.num 7, F32.num 5), (F32.num 5, F32.num 2)]
      (by decide) (by decide) (by decide),
   boundsIndependentMinMax.2.2
      [(F32.num 3, F32.num 1), (F32.num 7, F32.num 5), (F32.num 5, F32.num 2)]
      [(F32.num 7, F32.num 5), (F32.num 3, F32.num 1), (F32.num 5, F32.num 2)]
      (by decide) (by decide) (by decide)⟩
